import Mathlib

/-!
# EMOLOG — verification of the Transition Ranker and report-store/evaluator contracts

Shallow embedding of the emotion-transition clustering/ranking algorithm of
`mobile/screens/StatsScreen.tsx` (the primary Transition Ranker) and
`mobile/screens/DeveloperScreen.tsx` (its variant that also collects topic sets),
of the report-fetching client functions (`getLatestReport` / `getPreviousReport`),
and of the report-evaluation finalization step.

Modelling conventions:
* Calendar dates ("YYYY-MM-DD" strings in the source) are modelled as `Nat` day
  numbers (days since an epoch). Lexicographic order on ISO date strings agrees
  with numeric order on day numbers, and `new Date(d).getTime()` is
  `86400000 * day`, so `Math.ceil((max-min)/86400000)` is exactly `max - min`.
* JavaScript's `Array.prototype.sort` is stable (ES2019); a stable sort with a
  given comparator has a unique result, so it is modelled by a stable insertion
  sort with the same ordering.
* JavaScript objects with string keys preserve insertion order for non-numeric
  keys; `Object.values`/`Object.keys` of the group dictionary are modelled by an
  association list to which new keys are appended at the end.
* JS string truthiness tests such as `s && s.trim()` become `s.trim ≠ ""`
  (with `Option.getD ""` for possibly-missing fields).
* `substring(0, 50)` / `.length` count UTF-16 code units; all labels involved
  are BMP characters, where this agrees with `String.take` / `String.length`.
-/

/-- Model of `mobile/types/journal.ts`: `Emotion = { label, icon, color }`. -/
structure Emotion where
  label : String
  icon : String
  color : String
deriving DecidableEq, Repr

/-- Model of `mobile/types/journal.ts`: `JournalEntry` (fields used by the ranker; `emotion`
may be `null` when upstream extraction failed, `topic` is optional). -/
structure JournalEntry where
  date : Nat
  content : String
  topic : Option String
  emotion : Option Emotion
deriving DecidableEq, Repr

/-- Model of `services/api.ts`: `Insight` — `type` is one of three kinds. -/
inductive InsightType where
  | time_contrast
  | repetition
  | causal_relation
deriving DecidableEq, Repr

/-- Model of `services/api.ts`: `Insight` record (`summary` is optional). -/
structure Insight where
  type : InsightType
  description : String
  date_references : List Nat
  evidence : String
  summary : Option String
deriving DecidableEq, Repr

/-- Stable insertion of a day number into an ascending list
(used to model the JS `sort()` on ISO-date strings). -/
def insertDate (x : Nat) : List Nat → List Nat
  | [] => [x]
  | y :: ys => if x ≤ y then x :: y :: ys else y :: insertDate x ys

/-- Model of `[...insight.date_references].sort()`: ascending sort of the referenced dates. -/
def sortDates (l : List Nat) : List Nat := l.foldr insertDate []

/-- Sorting with `sortDates` permutes its input. -/
theorem insertDate_perm (x : Nat) (l : List Nat) : List.Perm (insertDate x l) (x :: l) := by
  induction l with
  | nil => rfl
  | cons y ys ih =>
    by_cases hxy : x ≤ y
    · rw [insertDate, if_pos hxy]
    · rw [insertDate, if_neg hxy]
      exact (ih.cons y).trans (List.Perm.swap x y ys)

theorem sortDates_perm (l : List Nat) : List.Perm (sortDates l) l := by
  induction l with
  | nil => rfl
  | cons x xs ih => exact (insertDate_perm x (sortDates xs)).trans (ih.cons x)

theorem insertDate_sorted {l : List Nat} (x : Nat) (h : l.Sorted (· ≤ ·)) :
    (insertDate x l).Sorted (· ≤ ·) := by
  induction l with
  | nil => simp [insertDate]
  | cons y ys ih =>
    by_cases hxy : x ≤ y
    · rw [insertDate, if_pos hxy]
      refine List.sorted_cons.mpr ⟨?_, h⟩
      intro b hb
      rcases List.mem_cons.mp hb with rfl | hb
      · exact hxy
      · exact le_trans hxy (List.rel_of_sorted_cons h b hb)
    · rw [insertDate, if_neg hxy]
      have hys : ys.Sorted (· ≤ ·) := (List.sorted_cons.mp h).2
      refine List.sorted_cons.mpr ⟨?_, ih hys⟩
      intro b hb
      have hb' := (insertDate_perm x ys).mem_iff.mp hb
      rcases List.mem_cons.mp hb' with rfl | hb'
      · exact le_of_not_le hxy
      · exact List.rel_of_sorted_cons h b hb'

theorem sortDates_sorted (l : List Nat) : (sortDates l).Sorted (· ≤ ·) := by
  induction l with
  | nil => simp [sortDates]
  | cons x xs ih => exact insertDate_sorted x ih

/-- An extracted per-Insight emotion transition:
`{ from, to, dates: sortedDates }` as returned by `getEmotionTransition`. -/
structure EmotionTransition where
  fromEmotion : Emotion
  toEmotion : Emotion
  dates : List Nat
deriving DecidableEq, Repr

/-- Model of `StatsScreen.tsx` / `DeveloperScreen.tsx` `getEmotionTransition(insight)`:
with fewer than 2 `date_references` return `null`; otherwise sort the referenced
dates ascending, resolve each to the journal entry's emotion (pushing
`{date, emotion: null}` when the entry is missing or has no emotion), filter to
the entries whose emotion is present, require at least 2 of them, and return the
first and last emotion together with the sorted date list. -/
def getEmotionTransition (journals : List JournalEntry) (insight : Insight) :
    Option EmotionTransition :=
  if insight.date_references.length < 2 then none
  else
    let sortedDates := sortDates insight.date_references
    let emotionList : List (Nat × Option Emotion) := sortedDates.map (fun date =>
      match journals.find? (fun j => j.date == date) with
      | some journal =>
        match journal.emotion with
        | some e => (date, some e)
        | none => (date, none)
      | none => (date, none))
    let validEmotions := emotionList.filter (fun item => item.2.isSome)
    if validEmotions.length < 2 then none
    else
      match validEmotions.head?, validEmotions.getLast? with
      | some f, some l =>
        match f.2, l.2 with
        | some fe, some le =>
          some { fromEmotion := fe, toEmotion := le, dates := sortedDates }
        | _, _ => none
      | _, _ => none

/-- ASCII whitespace relevant to the trimmed strings of this code base
(executable model of the JS `trim()` whitespace class). -/
def jsWhitespace (c : Char) : Bool := c = ' ' ∨ c = '\t' ∨ c = '\n' ∨ c = '\r'

/-- JS `s.trim()`: drop leading and trailing whitespace. -/
def jsTrim (s : String) : String :=
  ⟨(((s.data.dropWhile jsWhitespace).reverse).dropWhile jsWhitespace).reverse⟩

/-- JS `toLowerCase()` for the ASCII range (the only case-sensitive comparison
in the source is against the literal `'none'`). -/
def toLowerChar (c : Char) : Char :=
  if 65 ≤ c.toNat ∧ c.toNat ≤ 90 then Char.ofNat (c.toNat + 32) else c

def jsToLower (s : String) : String := ⟨s.data.map toLowerChar⟩

/-- JS `s.split('\n')[0]`: the prefix of `s` up to the first newline. -/
def jsFirstLine (s : String) : String := ⟨s.data.takeWhile (fun c => c ≠ '\n')⟩

/-- JS `s.substring(0, n)`. -/
def jsSubstring (s : String) (n : Nat) : String := ⟨s.data.take n⟩

/-- JS `s.length` (UTF-16 code units; equal to the character count on the BMP
strings this code handles). -/
def jsLength (s : String) : Nat := s.data.length

/-- A journal entry's topic when it passes the JS truthiness/`'none'` screen:
`journal && journal.topic && journal.topic.trim() && journal.topic.toLowerCase() !== 'none'`. -/
def journalTopic (journals : List JournalEntry) (date : Nat) : Option String :=
  match journals.find? (fun j => j.date == date) with
  | some journal =>
    match journal.topic with
    | some t => if jsTrim t ≠ "" ∧ jsToLower t ≠ "none" then some t else none
    | none => none
  | none => none

/-- Model of `DeveloperScreen.tsx` / `StatsScreen.tsx` `getTopicFromInsight(insight)`:
return `null` for an empty `date_references`; otherwise check the first listed
date's topic, then scan all of `date_references` in their listed order and
return the first valid topic found. -/
def getTopicFromInsight (journals : List JournalEntry) (insight : Insight) :
    Option String :=
  match insight.date_references with
  | [] => none
  | firstDate :: _ =>
    match journalTopic journals firstDate with
    | some t => some t
    | none => insight.date_references.findSome? (journalTopic journals)

/-- Model of `StatsScreen.tsx` `EMOTION_INTENSITY` / `DeveloperScreen.tsx`
`getEmotionIntensity`: the fixed label→intensity map, with `|| 0` making it
total over arbitrary labels. -/
def EMOTION_INTENSITY (label : String) : Nat :=
  if label = "기쁨" then 3
  else if label = "평온" then 2
  else if label = "지침" then 2
  else if label = "불안" then 3
  else if label = "슬픔" then 4
  else if label = "화남" then 5
  else 0

/-- The six labels with an explicit entry in the intensity map. -/
def KNOWN_EMOTION_LABELS : List String := ["기쁨", "평온", "지침", "불안", "슬픔", "화남"]

/-- Model of `Math.min(...dates.map(d => new Date(d).getTime()))` on day numbers. -/
def listMinD : List Nat → Nat
  | [] => 0
  | x :: xs => xs.foldl Nat.min x

/-- Model of `Math.max(...dates.map(d => new Date(d).getTime()))` on day numbers. -/
def listMaxD : List Nat → Nat
  | [] => 0
  | x :: xs => xs.foldl Nat.max x

/-- Model of `StatsScreen.tsx`: the duration bonus computed when a cluster is created —
`Math.ceil((max-min)/86400000) >= 7 ? 1 : 0` over the creating insight's sorted
referenced dates (ceil is exact on whole-day timestamps). -/
def durationBonusOf (dates : List Nat) : Nat :=
  if 7 ≤ listMaxD dates - listMinD dates then 1 else 0

/-- Model of `StatsScreen.tsx`: the fallback pushed into a cluster's `summaries`:
the insight's `summary` when non-blank, else the first line of `description`
(`split('\n')[0] || description`) truncated to 50 characters with `'...'`
appended when longer, else nothing. -/
def summaryEntry (insight : Insight) : Option String :=
  if jsTrim (insight.summary.getD "") ≠ "" then some (insight.summary.getD "")
  else if jsTrim insight.description ≠ "" then
    let firstLine0 := jsFirstLine insight.description
    let firstLine := if firstLine0 = "" then insight.description else firstLine0
    if jsLength firstLine > 50 then some ((jsSubstring firstLine 50) ++ "...")
    else some firstLine
  else none

/-- Model of `StatsScreen.tsx` `getTopEmotionTransitions`: one value of the
`transitionGroups` dictionary. -/
structure TransitionGroup where
  fromEmotion : Emotion
  toEmotion : Emotion
  intensityDiff : Nat
  durationBonus : Nat
  totalScore : Nat
  summaries : List String
  insights : List Insight
deriving DecidableEq, Repr

/-- The dictionary key `` `${from.label}->${to.label}` ``. -/
def transitionKey (et : EmotionTransition) : String :=
  et.fromEmotion.label ++ "->" ++ et.toEmotion.label

/-- The group created for a fresh `transitionKey`: intensity difference and
duration bonus are computed here, once, from the creating insight's transition. -/
def mkGroup (et : EmotionTransition) : TransitionGroup :=
  let fromIntensity := EMOTION_INTENSITY et.fromEmotion.label
  let toIntensity := EMOTION_INTENSITY et.toEmotion.label
  let intensityDiff := Int.natAbs ((fromIntensity : Int) - (toIntensity : Int))
  let durationBonus := durationBonusOf et.dates
  { fromEmotion := et.fromEmotion
    toEmotion := et.toEmotion
    intensityDiff := intensityDiff
    durationBonus := durationBonus
    totalScore := intensityDiff + durationBonus
    summaries := []
    insights := [] }

/-- Model of `transitionGroups[key].insights.push(insight)` followed by the summary push. -/
def pushInsight (g : TransitionGroup) (insight : Insight) : TransitionGroup :=
  { g with
    insights := g.insights ++ [insight]
    summaries := g.summaries ++ (summaryEntry insight).toList }

/-- Whether the dictionary already has an entry for `key`. -/
def hasKey (groups : List (String × TransitionGroup)) (key : String) : Bool :=
  groups.any (fun p => p.1 == key)

/-- Mutating `transitionGroups[key]`, modelled as a map over the association list. -/
def updateGroup (groups : List (String × TransitionGroup)) (key : String)
    (insight : Insight) : List (String × TransitionGroup) :=
  groups.map (fun p => if p.1 = key then (p.1, pushInsight p.2 insight) else p)

/-- The body of `report.insights.forEach((insight) => ...)` in
`StatsScreen.tsx` `getTopEmotionTransitions`: skip insights without a
transition, skip `from.label === to.label`, create the group if its key is
missing (computing scores from this insight's dates), then push the insight and
its summary/fallback. -/
def addInsight (journals : List JournalEntry)
    (groups : List (String × TransitionGroup)) (insight : Insight) :
    List (String × TransitionGroup) :=
  match getEmotionTransition journals insight with
  | none => groups
  | some et =>
    if et.fromEmotion.label = et.toEmotion.label then groups
    else
      let key := transitionKey et
      let groups1 :=
        if hasKey groups key then groups else groups ++ [(key, mkGroup et)]
      updateGroup groups1 key insight

/-- The populated `transitionGroups` dictionary, in key-insertion order. -/
def buildGroups (journals : List JournalEntry) (insights : List Insight) :
    List (String × TransitionGroup) :=
  insights.foldl (addInsight journals) []

/-- Stable insertion for the descending-score sort: `x` goes in front of the
first element whose score does not exceed `x`'s, so among equal scores the
earlier (first-inserted) element stays first. -/
def insertByScore {α : Type} (score : α → Nat) (x : α) : List α → List α
  | [] => [x]
  | y :: ys => if score y ≤ score x then x :: y :: ys else y :: insertByScore score x ys

/-- Model of `.sort((a, b) => b.totalScore - a.totalScore)`: the (unique) stable
descending sort by score. -/
def sortByScoreDesc {α : Type} (score : α → Nat) (l : List α) : List α :=
  l.foldr (insertByScore score) []

/-- Model of `StatsScreen.tsx`: the final mapped shape
`{ ...rest, summary: summaries[0] || '', insights }`. -/
structure RankedTransition where
  fromEmotion : Emotion
  toEmotion : Emotion
  intensityDiff : Nat
  durationBonus : Nat
  totalScore : Nat
  summary : String
  insights : List Insight
deriving DecidableEq, Repr

def finalizeGroup (g : TransitionGroup) : RankedTransition :=
  { fromEmotion := g.fromEmotion
    toEmotion := g.toEmotion
    intensityDiff := g.intensityDiff
    durationBonus := g.durationBonus
    totalScore := g.totalScore
    summary := g.summaries.headD ""
    insights := g.insights }

/-- Model of `StatsScreen.tsx` `getTopEmotionTransitions()`: build the groups, sort the
dictionary's values descending by `totalScore` (stable), and map to the final
shape. -/
def getTopEmotionTransitions (journals : List JournalEntry)
    (insights : List Insight) : List RankedTransition :=
  (sortByScoreDesc (fun g => g.totalScore)
      ((buildGroups journals insights).map Prod.snd)).map finalizeGroup

/-- Model of `StatsScreen.tsx`: `showAllEmotionTransitions ? allEmotionTransitions :
allEmotionTransitions.slice(0, 3)`. -/
def displayedTransitions (showAll : Bool) (journals : List JournalEntry)
    (insights : List Insight) : List RankedTransition :=
  let allTransitions := getTopEmotionTransitions journals insights
  if showAll then allTransitions else allTransitions.take 3

/-- Model of `DeveloperScreen.tsx` `groupByEmotionTransition`: one value of its
`transitionGroups` dictionary (`topics` is a JS `Set<string>`, i.e. an
insertion-ordered list without duplicates). -/
structure DevGroup where
  fromEmotion : Emotion
  toEmotion : Emotion
  topics : List String
  dateRanges : List (Nat × Nat)
deriving DecidableEq, Repr

/-- Model of `Set.add`: append unless already present. -/
def addTopic (ts : List String) (t : String) : List String :=
  if t ∈ ts then ts else ts ++ [t]

/-- A fold of `addTopic`, i.e. the insertion-ordered deduplication of a list. -/
def dedupTopics (l : List String) : List String := l.foldl addTopic []

/-- The update applied to `transitionGroups[key]` in
`DeveloperScreen.tsx` `groupByEmotionTransition`: add the insight's topic (if
any) to the topic set, then push the insight's `(start, end)` sorted date range. -/
def devPush (journals : List JournalEntry) (insight : Insight)
    (et : EmotionTransition) (g : DevGroup) : DevGroup :=
  let g1 :=
    match getTopicFromInsight journals insight with
    | some t => { g with topics := addTopic g.topics t }
    | none => g
  if et.dates.length ≥ 2 then
    let sorted := sortDates et.dates
    { g1 with dateRanges := g1.dateRanges ++ [(sorted.headD 0, sorted.getLastD 0)] }
  else g1

def devHasKey (groups : List (String × DevGroup)) (key : String) : Bool :=
  groups.any (fun p => p.1 == key)

def devUpdateGroup (groups : List (String × DevGroup)) (key : String)
    (journals : List JournalEntry) (insight : Insight) (et : EmotionTransition) :
    List (String × DevGroup) :=
  groups.map (fun p => if p.1 = key then (p.1, devPush journals insight et p.2) else p)

/-- The body of `insights.forEach((insight) => ...)` in
`DeveloperScreen.tsx` `groupByEmotionTransition`. -/
def devAddInsight (journals : List JournalEntry)
    (groups : List (String × DevGroup)) (insight : Insight) :
    List (String × DevGroup) :=
  match getEmotionTransition journals insight with
  | none => groups
  | some et =>
    if et.fromEmotion.label = et.toEmotion.label then groups
    else
      let key := transitionKey et
      let groups1 :=
        if devHasKey groups key then groups
        else groups ++ [(key, { fromEmotion := et.fromEmotion, toEmotion := et.toEmotion,
                                topics := [], dateRanges := [] })]
      devUpdateGroup groups1 key journals insight et

/-- Model of `DeveloperScreen.tsx` `groupByEmotionTransition()`: the transition-keyed
dictionary of `{from, to, topics, dateRanges}` groups, in key-insertion order. -/
def groupByEmotionTransition (journals : List JournalEntry)
    (insights : List Insight) : List (String × DevGroup) :=
  insights.foldl (devAddInsight journals) []

/-- Model of `services/api.ts`: `WeeklyReportResponse` (fields of the parsed JSON body). -/
structure WeeklyReportResponse where
  report : String
  summary : String
  period_start : Nat
  period_end : Nat
  insights : List Insight
  created_at : Option String
deriving DecidableEq, Repr

/-- The observable outcome of one `fetch` call: either the fetch itself throws
(network failure — the promise rejects inside the `try`), or a response arrives
with an HTTP status and a body whose JSON parse either succeeds
(`response.json()` resolves to the typed record) or fails with a parse error
(`response.json()` rejects). -/
inductive FetchOutcome where
  | thrown (msg : String)
  | resp (status : Nat) (body : Except String WeeklyReportResponse)
deriving Repr

/-- Model of `response.ok`: HTTP status in the 200–299 range. -/
def responseOk (status : Nat) : Bool := 200 ≤ status ∧ status ≤ 299

/-- Model of `services/api.ts` `getLatestReport(userId)`, as an async function whose
result is `Except` (an `error` result means the promise returned to the caller
rejects). The `try/catch` catches everything awaited inside the `try` — the
fetch rejection and the `response.text()` of the error branch — and returns
`null`; a non-ok response returns `null` (404 explicitly, any other status
after logging). On an ok response the source executes `return response.json();`
**without `await`**: the JSON promise is adopted *after* the `try` block is
exited, so a body-parse rejection is not caught and propagates to the caller. -/
def getLatestReport (userId : String) (outcome : FetchOutcome) :
    Except String (Option WeeklyReportResponse) :=
  match userId, outcome with
  | _, .thrown _ => .ok none
  | _, .resp status body =>
    if ¬ responseOk status then
      if status = 404 then .ok none
      else .ok none
    else
      body.map some

/-- Model of `services/api.ts` `getPreviousReport(userId, created_at)`: identical
control flow to `getLatestReport` (only the URL and query parameters differ). -/
def getPreviousReport (userId : String) (created_at : String)
    (outcome : FetchOutcome) : Except String (Option WeeklyReportResponse) :=
  match userId, created_at, outcome with
  | _, _, .thrown _ => .ok none
  | _, _, .resp status body =>
    if ¬ responseOk status then
      if status = 404 then .ok none
      else .ok none
    else
      body.map some

/-- The finalized evaluation fields of `ReportEvaluationState`. -/
structure EvaluationResult where
  overall_score : ℚ
  is_acceptable : Bool
  needs_revision : Bool
deriving DecidableEq, Repr

/-- Modelled from the spec: the backend `finalize_evaluation` node of the
report-evaluation graph is not present under `src/` (the architecture docs only
name the node and its acceptance check `overall_score >= 0.7`). Per the spec,
finalization is a pure local computation with `min` as the combining rule:
`overall_score = min(quality_score, safety_score)`,
`is_acceptable = overall_score ≥ 0.7`, `needs_revision = !is_acceptable`. -/
def finalize_evaluation (quality_score safety_score : ℚ) : EvaluationResult :=
  let overall := min quality_score safety_score
  { overall_score := overall
    is_acceptable := decide (overall ≥ 7/10)
    needs_revision := ! decide (overall ≥ 7/10) }

section SortLemmas

variable {α : Type} (score : α → Nat)

theorem insertByScore_perm (x : α) (l : List α) :
    List.Perm (insertByScore score x l) (x :: l) := by
  induction l with
  | nil => rfl
  | cons y ys ih =>
    by_cases hyx : score y ≤ score x
    · rw [insertByScore, if_pos hyx]
    · rw [insertByScore, if_neg hyx]
      exact (ih.cons y).trans (List.Perm.swap x y ys)

theorem sortByScoreDesc_perm (l : List α) :
    List.Perm (sortByScoreDesc score l) l := by
  induction l with
  | nil => rfl
  | cons x xs ih =>
    exact (insertByScore_perm score x (sortByScoreDesc score xs)).trans (ih.cons x)

theorem insertByScore_pairwise (x : α) {l : List α}
    (h : l.Pairwise (fun a b => score b ≤ score a)) :
    (insertByScore score x l).Pairwise (fun a b => score b ≤ score a) := by
  induction l with
  | nil => simp [insertByScore]
  | cons y ys ih =>
    rcases List.pairwise_cons.mp h with ⟨hy, hys⟩
    by_cases hyx : score y ≤ score x
    · rw [insertByScore, if_pos hyx]
      refine List.pairwise_cons.mpr ⟨?_, h⟩
      intro b hb
      rcases List.mem_cons.mp hb with rfl | hb
      · exact hyx
      · exact le_trans (hy b hb) hyx
    · rw [insertByScore, if_neg hyx]
      refine List.pairwise_cons.mpr ⟨?_, ih hys⟩
      intro b hb
      have hb' := (insertByScore_perm score x ys).mem_iff.mp hb
      rcases List.mem_cons.mp hb' with rfl | hb'
      · exact le_of_not_le hyx
      · exact hy b hb'

theorem sortByScoreDesc_pairwise (l : List α) :
    (sortByScoreDesc score l).Pairwise (fun a b => score b ≤ score a) := by
  induction l with
  | nil => simp [sortByScoreDesc]
  | cons x xs ih => exact insertByScore_pairwise score x ih

/-- Filtering to one score value commutes with the stable insertion: the
inserted element lands in front of the equal-score block. -/
theorem insertByScore_filter (x : α) (l : List α) (s : Nat) :
    (insertByScore score x l).filter (fun a => score a == s) =
      if score x == s then x :: l.filter (fun a => score a == s)
      else l.filter (fun a => score a == s) := by
  induction l with
  | nil =>
    cases hx : score x == s
    · simp [insertByScore, List.filter, hx]
    · simp [insertByScore, List.filter, hx]
  | cons y ys ih =>
    by_cases hyx : score y ≤ score x
    · rw [insertByScore, if_pos hyx]
      cases hx : score x == s
      · simp [List.filter, hx]
      · simp [List.filter, hx]
    · rw [insertByScore, if_neg hyx]
      cases hx : score x == s
      · cases hy : score y == s
        · simp [List.filter, hy, ih, hx]
        · simp [List.filter, hy, ih, hx]
      · have hy : (score y == s) = false := by
          have h1 : score x < score y := Nat.lt_of_not_le hyx
          have h2 : score x = s := by simpa using hx
          simp only [beq_eq_false_iff_ne, ne_eq]
          omega
        simp [List.filter, hy, ih, hx]

/-- Stability of the descending sort: within each equal-score class the order
of the input is preserved exactly. -/
theorem sortByScoreDesc_filter (l : List α) (s : Nat) :
    (sortByScoreDesc score l).filter (fun a => score a == s) =
      l.filter (fun a => score a == s) := by
  induction l with
  | nil => rfl
  | cons x xs ih =>
    show ((insertByScore score x (sortByScoreDesc score xs)).filter _) = _
    rw [insertByScore_filter]
    cases hx : score x == s
    · simp [ih, List.filter, hx]
    · simp [ih, List.filter, hx]

end SortLemmas

/-- The invariant carried by every value of the `transitionGroups` dictionary:
each group descends from the insight that created it (the first one pushed into
`insights`), and all score fields were computed, once, from that insight's
transition. -/
def GroupInv (journals : List JournalEntry) (g : TransitionGroup) : Prop :=
  ∃ i et, g.insights.head? = some i ∧
    getEmotionTransition journals i = some et ∧
    et.fromEmotion.label ≠ et.toEmotion.label ∧
    g.fromEmotion = et.fromEmotion ∧ g.toEmotion = et.toEmotion ∧
    g.intensityDiff = Int.natAbs ((EMOTION_INTENSITY et.fromEmotion.label : Int) -
      (EMOTION_INTENSITY et.toEmotion.label : Int)) ∧
    g.durationBonus = durationBonusOf et.dates ∧
    g.totalScore = g.intensityDiff + g.durationBonus

theorem head?_append_of_head? {α : Type} {l : List α} {a : α} (l' : List α)
    (h : l.head? = some a) : (l ++ l').head? = some a := by
  cases l with
  | nil => simp at h
  | cons x xs => simpa using h

theorem groupInv_pushInsight {journals : List JournalEntry} {g : TransitionGroup}
    (insight : Insight) (h : GroupInv journals g) :
    GroupInv journals (pushInsight g insight) := by
  obtain ⟨i, et, hhead, hget, hne, hfrom, hto, hdiff, hbonus, hscore⟩ := h
  exact ⟨i, et, head?_append_of_head? _ hhead, hget, hne, hfrom, hto, hdiff, hbonus, hscore⟩

theorem groupInv_new {journals : List JournalEntry} {insight : Insight}
    {et : EmotionTransition} (hget : getEmotionTransition journals insight = some et)
    (hne : et.fromEmotion.label ≠ et.toEmotion.label) :
    GroupInv journals (pushInsight (mkGroup et) insight) := by
  refine ⟨insight, et, ?_, hget, hne, rfl, rfl, rfl, rfl, rfl⟩
  simp [pushInsight, mkGroup]

theorem addInsight_inv {journals : List JournalEntry}
    {groups : List (String × TransitionGroup)} (insight : Insight)
    (h : ∀ p ∈ groups, GroupInv journals p.2) :
    ∀ p ∈ addInsight journals groups insight, GroupInv journals p.2 := by
  intro p hp
  unfold addInsight at hp
  cases hget : getEmotionTransition journals insight with
  | none => rw [hget] at hp; exact h p hp
  | some et =>
    rw [hget] at hp
    dsimp only at hp
    by_cases hne : et.fromEmotion.label = et.toEmotion.label
    · rw [if_pos hne] at hp; exact h p hp
    · rw [if_neg hne] at hp
      unfold updateGroup at hp
      rcases List.mem_map.mp hp with ⟨q, hq, hpq⟩
      have hq_inv : GroupInv journals q.2 ∨ q = (transitionKey et, mkGroup et) := by
        by_cases hk : hasKey groups (transitionKey et)
        · rw [if_pos hk] at hq; exact Or.inl (h q hq)
        · rw [if_neg hk] at hq
          rcases List.mem_append.mp hq with hq' | hq'
          · exact Or.inl (h q hq')
          · exact Or.inr (List.mem_singleton.mp hq')
      by_cases hkey : q.1 = transitionKey et
      · rw [if_pos hkey] at hpq
        rcases hq_inv with hinv | rfl
        · exact hpq ▸ groupInv_pushInsight insight hinv
        · exact hpq ▸ groupInv_new hget hne
      · rw [if_neg hkey] at hpq
        rcases hq_inv with hinv | rfl
        · exact hpq ▸ hinv
        · exact absurd rfl hkey

theorem foldl_addInsight_inv (journals : List JournalEntry) (insights : List Insight)
    (groups : List (String × TransitionGroup))
    (h : ∀ p ∈ groups, GroupInv journals p.2) :
    ∀ p ∈ insights.foldl (addInsight journals) groups, GroupInv journals p.2 := by
  induction insights generalizing groups with
  | nil => exact h
  | cons i is ih => exact ih _ (addInsight_inv i h)

theorem buildGroups_inv (journals : List JournalEntry) (insights : List Insight) :
    ∀ p ∈ buildGroups journals insights, GroupInv journals p.2 :=
  foldl_addInsight_inv journals insights [] (by simp)

/-- Every ranked transition of the output descends from a dictionary group
satisfying `GroupInv`. -/
theorem mem_getTopEmotionTransitions {journals : List JournalEntry}
    {insights : List Insight} {c : RankedTransition}
    (hc : c ∈ getTopEmotionTransitions journals insights) :
    ∃ g, GroupInv journals g ∧ c = finalizeGroup g := by
  unfold getTopEmotionTransitions at hc
  rcases List.mem_map.mp hc with ⟨g, hg, hcg⟩
  have hg' : g ∈ (buildGroups journals insights).map Prod.snd :=
    (sortByScoreDesc_perm (fun g => g.totalScore) _).mem_iff.mp hg
  rcases List.mem_map.mp hg' with ⟨p, hp, hpg⟩
  exact ⟨g, hpg ▸ buildGroups_inv journals insights p hp, hcg.symm⟩

/-- The per-date resolution step written as a pair with an optional emotion. -/
theorem emotionAt_eq (journals : List JournalEntry) (date : Nat) :
    (match journals.find? (fun j => j.date == date) with
      | some journal =>
        match journal.emotion with
        | some e => (date, some e)
        | none => (date, (none : Option Emotion))
      | none => (date, none)) =
    (date, (journals.find? (fun j => j.date == date)).bind (fun j => j.emotion)) := by
  cases journals.find? (fun j => j.date == date) with
  | none => rfl
  | some j => cases hj : j.emotion <;> simp [hj]

/-- Keeping the pairs with a present emotion and then projecting equals
resolving the emotions directly. -/
theorem filter_isSome_map_snd (l : List (Nat × Option Emotion)) :
    (l.filter (fun p => p.2.isSome)).map (fun p => p.2) =
      (l.filterMap (fun p => p.2)).map some := by
  induction l with
  | nil => rfl
  | cons x xs ih =>
    cases hx : x.2 with
    | none => simp [List.filter_cons, List.filterMap_cons, hx, ih]
    | some e => simp [List.filter_cons, List.filterMap_cons, hx, ih]

/-- Claim-side (spec-worded) resolution for the transition-extraction step:
sort the referenced dates ascending and resolve each to its journal entry's
emotion, skipping dates whose entry is missing or has no emotion. -/
def resolvedEmotionsSpec (journals : List JournalEntry) (insight : Insight) :
    List Emotion :=
  (sortDates insight.date_references).filterMap
    (fun date => (journals.find? (fun j => j.date == date)).bind (fun j => j.emotion))

/-- Claim-side (spec-worded) per-insight transition pair: defined exactly when
the insight has at least 2 `date_references` and at least 2 resolved emotions
remain; the pair is then (first resolved emotion, last resolved emotion) in
date order. -/
def transitionPairSpec (journals : List JournalEntry) (insight : Insight) :
    Option (Emotion × Emotion) :=
  if 2 ≤ insight.date_references.length then
    match resolvedEmotionsSpec journals insight with
    | e0 :: e1 :: rest => some (e0, (e1 :: rest).getLast (List.cons_ne_nil e1 rest))
    | _ => none
  else none

/-- C4: for every Insight, the per-Insight transition-extraction step returns a
(from, to) emotion pair exactly when the Insight has at least 2
`date_references` and, after sorting the referenced dates ascending and
resolving each date to its journal entry's emotion while skipping dates whose
entry is missing or has no emotion, at least 2 emotions remain; the pair is
then (first resolved emotion, last resolved emotion) in date order, and
otherwise the Insight contributes nothing. Stated as: `getEmotionTransition`
projected to its emotion pair coincides with the claim-worded
`transitionPairSpec`. -/
theorem emotion_transition_extraction_spec (journals : List JournalEntry) (insight : Insight) :
    (getEmotionTransition journals insight).map (fun et => (et.fromEmotion, et.toEmotion)) =
      transitionPairSpec journals insight := by
  unfold getEmotionTransition transitionPairSpec
  by_cases hlen : insight.date_references.length < 2
  · rw [if_pos hlen, if_neg (by omega)]
    rfl
  · rw [if_neg hlen, if_pos (show 2 ≤ insight.date_references.length by omega)]
    rw [show (fun (date : Nat) =>
        match List.find? (fun j => j.date == date) journals with
        | some journal =>
          match journal.emotion with
          | some e => (date, some e)
          | none => (date, (none : Option Emotion))
        | none => (date, none)) =
      (fun date => (date, (journals.find? (fun j => j.date == date)).bind (fun j => j.emotion)))
      from funext (emotionAt_eq journals)]
    dsimp only
    have hRV : ((((sortDates insight.date_references).map
          (fun date => (date, (List.find? (fun j => j.date == date) journals).bind
            fun j => j.emotion))).filter
            (fun item => item.2.isSome)).map (fun p => p.2)) =
        (resolvedEmotionsSpec journals insight).map some := by
      rw [filter_isSome_map_snd, List.filterMap_map, resolvedEmotionsSpec]
      rfl
    generalize hVg : ((sortDates insight.date_references).map
        (fun date => (date, (List.find? (fun j => j.date == date) journals).bind fun j => j.emotion))).filter
          (fun item => item.2.isSome) = V at hRV ⊢
    generalize hRg : resolvedEmotionsSpec journals insight = R at hRV ⊢
    have hlenV : V.length = R.length := by
      have h := congrArg List.length hRV
      simpa using h
    by_cases hv : V.length < 2
    · rw [if_pos hv]
      cases R with
      | nil => rfl
      | cons e0 t =>
        cases t with
        | nil => rfl
        | cons e1 rest =>
          rw [hlenV] at hv
          simp only [List.length_cons] at hv
          omega
    · rw [if_neg hv]
      obtain ⟨v0, v1, vt, rfl⟩ : ∃ v0 v1 vt, V = v0 :: v1 :: vt := by
        cases V with
        | nil => simp only [List.length_nil] at hv; omega
        | cons v0 t =>
          cases t with
          | nil => simp only [List.length_cons, List.length_nil] at hv; omega
          | cons v1 vt => exact ⟨v0, v1, vt, rfl⟩
      obtain ⟨e0, e1, rest, rfl⟩ : ∃ e0 e1 rest, R = e0 :: e1 :: rest := by
        cases R with
        | nil => simp only [List.length_cons, List.length_nil] at hlenV; omega
        | cons e0 t =>
          cases t with
          | nil => simp only [List.length_cons, List.length_nil] at hlenV; omega
          | cons e1 rest => exact ⟨e0, e1, rest, rfl⟩
      have hv0 : v0.2 = some e0 := by
        have h := congrArg List.head? hRV
        simpa using h
      have hlast : ((v0 :: v1 :: vt).getLast (by simp)).2 =
          some ((e0 :: e1 :: rest).getLast (by simp)) := by
        have h := congrArg List.getLast? hRV
        rw [List.getLast?_map, List.getLast?_map,
          List.getLast?_eq_getLast _ (by simp), List.getLast?_eq_getLast _ (by simp)] at h
        simpa using h
      rw [List.getLast?_eq_getLast _ (by simp : v0 :: v1 :: vt ≠ [])]
      simp only [List.head?_cons]
      rw [hv0, hlast]
      dsimp only
      simp [List.getLast_cons]

theorem filter_score_map_finalize (s : Nat) (l : List TransitionGroup) :
    (l.map finalizeGroup).filter (fun c => c.totalScore == s) =
      (l.filter (fun g => g.totalScore == s)).map finalizeGroup := by
  rw [List.filter_map]
  rfl

/-- C2: for every input Insight list and journal snapshot, the Transition
Ranker returns clusters sorted in descending order of `totalScore`; ties
between equal-score clusters are broken by insertion order — filtering the
output to any fixed score value yields exactly the clusters of that score in
the order the `transitionGroups` dictionary (`buildGroups`) created them — and
by default only the first 3 clusters are shown
(`showAllEmotionTransitions = false`), with the option to reveal all of them. -/
theorem ranker_sorted_stable_top3 (journals : List JournalEntry)
    (insights : List Insight) :
    (getTopEmotionTransitions journals insights).Pairwise
        (fun a b => b.totalScore ≤ a.totalScore)
    ∧ (∀ s : Nat, (getTopEmotionTransitions journals insights).filter
          (fun c => c.totalScore == s) =
        (((buildGroups journals insights).map Prod.snd).map finalizeGroup).filter
          (fun c => c.totalScore == s))
    ∧ displayedTransitions false journals insights =
        (getTopEmotionTransitions journals insights).take 3
    ∧ displayedTransitions true journals insights =
        getTopEmotionTransitions journals insights := by
  refine ⟨?_, ?_, rfl, rfl⟩
  · unfold getTopEmotionTransitions
    exact List.pairwise_map.mpr
      (sortByScoreDesc_pairwise (fun g : TransitionGroup => g.totalScore) _)
  · intro s
    unfold getTopEmotionTransitions
    rw [filter_score_map_finalize, filter_score_map_finalize,
      sortByScoreDesc_filter]

/-- The CALM emotion record (label `평온`). -/
def calmE : Emotion := ⟨"평온", "", ""⟩

/-- The SADNESS emotion record (label `슬픔`). -/
def sadE : Emotion := ⟨"슬픔", "", ""⟩

/-- The spec's scenario journal: 2024-01-01 (day 0, CALM) and
2024-01-08 (day 7, SADNESS). -/
def scenarioJournals : List JournalEntry :=
  [⟨0, "calm day", none, some calmE⟩, ⟨7, "breakdown", none, some sadE⟩]

/-- The spec's scenario Insight referencing both dates. -/
def scenarioInsight : Insight :=
  ⟨.time_contrast, "calm to sad over a week", [0, 7], "evidence", none⟩

/-- The single cluster the ranker produces for the scenario. -/
def scenarioCluster : RankedTransition :=
  { fromEmotion := calmE, toEmotion := sadE, intensityDiff := 2, durationBonus := 1,
    totalScore := 3, summary := "calm to sad over a week", insights := [scenarioInsight] }

theorem scenarioCluster_mem :
    scenarioCluster ∈ getTopEmotionTransitions scenarioJournals [scenarioInsight] := by
  have h : getTopEmotionTransitions scenarioJournals [scenarioInsight] =
      [scenarioCluster] := by rfl
  rw [h]
  exact List.mem_singleton_self _

/-- Journal for the C1 counterexample: CALM on day 0, SADNESS on days 1 and 7. -/
def spanJournals : List JournalEntry :=
  [⟨0, "", none, some calmE⟩, ⟨1, "", none, some sadE⟩, ⟨7, "", none, some sadE⟩]

/-- First insight of the CALM→SADNESS cluster: a 1-day span (no bonus). -/
def shortSpanInsight : Insight := ⟨.time_contrast, "one day", [0, 1], "e", none⟩

/-- Second insight of the same cluster: a 7-day span. -/
def longSpanInsight : Insight := ⟨.time_contrast, "one week", [0, 7], "e", none⟩

/-- C1 counterexample: with two Insights in one CALM→SADNESS cluster — the
first spanning 1 day, the second 7 days — the cluster's score is 2 (the
duration bonus was computed from the first insight alone), while the claim's
formula — bonus from the min/max referenced date across ALL contributing
Insights — gives |2−4| + 1 = 3. -/
theorem cluster_score_ignores_later_insights :
    (getTopEmotionTransitions spanJournals [shortSpanInsight, longSpanInsight]).map
        (fun c => (c.fromEmotion.label, c.toEmotion.label, c.totalScore)) =
      [("평온", "슬픔", 2)]
    ∧ Int.natAbs ((EMOTION_INTENSITY "평온" : Int) - (EMOTION_INTENSITY "슬픔" : Int)) +
        durationBonusOf
          (sortDates (shortSpanInsight.date_references ++ longSpanInsight.date_references)) =
      3 := ⟨rfl, rfl⟩

/-- C1 (amended): every cluster's score is
`|intensity(fromEmotion) − intensity(toEmotion)| + durationBonus`, where the
duration bonus is computed once, when the cluster is created, from the span of
the FIRST contributing Insight's sorted referenced dates (1 iff that span is
≥ 7 days, else 0) — not from the span across all contributing Insights; in
particular, for one Insight referencing 2024-01-01 (CALM) and 2024-01-08
(SADNESS) the cluster scores |intensity(평온) − intensity(슬픔)| + 1 = 3. -/
theorem cluster_score_formula :
    (∀ journals insights, ∀ c ∈ getTopEmotionTransitions journals insights,
      ∃ i et, c.insights.head? = some i ∧
        getEmotionTransition journals i = some et ∧
        c.fromEmotion = et.fromEmotion ∧ c.toEmotion = et.toEmotion ∧
        c.totalScore = Int.natAbs ((EMOTION_INTENSITY et.fromEmotion.label : Int) -
            (EMOTION_INTENSITY et.toEmotion.label : Int)) + durationBonusOf et.dates)
    ∧ (getTopEmotionTransitions scenarioJournals [scenarioInsight]).map
        (fun c => c.totalScore) =
      [Int.natAbs ((EMOTION_INTENSITY "평온" : Int) -
          (EMOTION_INTENSITY "슬픔" : Int)) + 1] := by
  constructor
  · intro journals insights c hc
    obtain ⟨g, hg, rfl⟩ := mem_getTopEmotionTransitions hc
    obtain ⟨i, et, hhead, hget, hne, hfrom, hto, hdiff, hbonus, hscore⟩ := hg
    refine ⟨i, et, hhead, hget, hfrom, hto, ?_⟩
    show g.totalScore = _
    rw [hscore, hdiff, hbonus]
  · rfl

theorem cluster_score_formula_witness :
    ∃ i et, scenarioCluster.insights.head? = some i ∧
      getEmotionTransition scenarioJournals i = some et ∧
      scenarioCluster.fromEmotion = et.fromEmotion ∧
      scenarioCluster.toEmotion = et.toEmotion ∧
      scenarioCluster.totalScore =
        Int.natAbs ((EMOTION_INTENSITY et.fromEmotion.label : Int) -
          (EMOTION_INTENSITY et.toEmotion.label : Int)) + durationBonusOf et.dates :=
  cluster_score_formula.1 scenarioJournals [scenarioInsight]
    scenarioCluster scenarioCluster_mem

/-- C3: no cluster produced by the Transition Ranker has `fromEmotion` equal to
`toEmotion`: any Insight whose first and last resolved emotions share the same
label is excluded before grouping. -/
theorem ranker_no_self_transition (journals : List JournalEntry)
    (insights : List Insight) :
    ∀ c ∈ getTopEmotionTransitions journals insights,
      c.fromEmotion.label ≠ c.toEmotion.label := by
  intro c hc
  obtain ⟨g, hg, rfl⟩ := mem_getTopEmotionTransitions hc
  obtain ⟨i, et, _, _, hne, hfrom, hto, _, _, _⟩ := hg
  show g.fromEmotion.label ≠ g.toEmotion.label
  rw [hfrom, hto]
  exact hne

theorem ranker_no_self_transition_witness :
    scenarioCluster.fromEmotion.label ≠ scenarioCluster.toEmotion.label :=
  ranker_no_self_transition scenarioJournals [scenarioInsight]
    scenarioCluster scenarioCluster_mem

/-- C5: the Transition Ranker (and the topic-collecting grouping) is a
deterministic pure function of the Insight list and the journal snapshot:
equal inputs give identical ordered clusters, scores, summaries and topic
sets. The embedding is total and reads nothing but its two arguments. -/
theorem ranker_deterministic (j1 j2 : List JournalEntry) (i1 i2 : List Insight)
    (hj : j1 = j2) (hi : i1 = i2) :
    getTopEmotionTransitions j1 i1 = getTopEmotionTransitions j2 i2
    ∧ groupByEmotionTransition j1 i1 = groupByEmotionTransition j2 i2 := by
  subst hj
  subst hi
  exact ⟨rfl, rfl⟩

theorem ranker_deterministic_witness :
    getTopEmotionTransitions scenarioJournals [scenarioInsight] =
      getTopEmotionTransitions scenarioJournals [scenarioInsight]
    ∧ groupByEmotionTransition scenarioJournals [scenarioInsight] =
      groupByEmotionTransition scenarioJournals [scenarioInsight] :=
  ranker_deterministic scenarioJournals scenarioJournals
    [scenarioInsight] [scenarioInsight] rfl rfl

theorem EMOTION_INTENSITY_unknown (label : String)
    (h : label ∉ KNOWN_EMOTION_LABELS) : EMOTION_INTENSITY label = 0 := by
  simp only [KNOWN_EMOTION_LABELS, List.mem_cons, List.not_mem_nil, or_false] at h
  push_neg at h
  obtain ⟨h1, h2, h3, h4, h5, h6⟩ := h
  simp [EMOTION_INTENSITY, h1, h2, h3, h4, h5, h6]

/-- An emotion with a label outside the fixed intensity map. -/
def unknownE1 : Emotion := ⟨"모름", "", ""⟩

/-- Another emotion with a label outside the fixed intensity map. -/
def unknownE2 : Emotion := ⟨"어색", "", ""⟩

def unknownJournals : List JournalEntry :=
  [⟨0, "", none, some unknownE1⟩, ⟨1, "", none, some unknownE2⟩]

def unknownInsight : Insight := ⟨.time_contrast, "u", [0, 1], "e", none⟩

/-- The cluster the ranker produces for the two unknown labels. -/
def unknownCluster : RankedTransition :=
  { fromEmotion := unknownE1, toEmotion := unknownE2, intensityDiff := 0,
    durationBonus := 0, totalScore := 0, summary := "u", insights := [unknownInsight] }

theorem unknownCluster_mem :
    unknownCluster ∈ getTopEmotionTransitions unknownJournals [unknownInsight] := by
  have h : getTopEmotionTransitions unknownJournals [unknownInsight] =
      [unknownCluster] := by rfl
  rw [h]
  exact List.mem_singleton_self _

/-- C10: the emotion-intensity mapping is total over arbitrary labels — the
six known labels map to their fixed values (기쁨 3, 평온 2, 지침 2, 불안 3,
슬픔 4, 화남 5), every other label maps to 0 — and a cluster whose from/to
labels both fall outside the fixed set has intensity difference 0, so its
score equals the duration bonus alone; the ranker is a total function and
never fails on unknown labels. -/
theorem emotion_intensity_total :
    (EMOTION_INTENSITY "기쁨" = 3 ∧ EMOTION_INTENSITY "평온" = 2 ∧
     EMOTION_INTENSITY "지침" = 2 ∧ EMOTION_INTENSITY "불안" = 3 ∧
     EMOTION_INTENSITY "슬픔" = 4 ∧ EMOTION_INTENSITY "화남" = 5)
    ∧ (∀ label, label ∉ KNOWN_EMOTION_LABELS → EMOTION_INTENSITY label = 0)
    ∧ (∀ journals insights, ∀ c ∈ getTopEmotionTransitions journals insights,
        c.fromEmotion.label ∉ KNOWN_EMOTION_LABELS →
        c.toEmotion.label ∉ KNOWN_EMOTION_LABELS →
        c.totalScore = c.durationBonus) := by
  refine ⟨⟨rfl, rfl, rfl, rfl, rfl, rfl⟩, EMOTION_INTENSITY_unknown, ?_⟩
  intro journals insights c hc hfromU htoU
  obtain ⟨g, hg, rfl⟩ := mem_getTopEmotionTransitions hc
  obtain ⟨i, et, _, _, _, hfrom, hto, hdiff, hbonus, hscore⟩ := hg
  have hf0 : EMOTION_INTENSITY et.fromEmotion.label = 0 := by
    apply EMOTION_INTENSITY_unknown
    have : (finalizeGroup g).fromEmotion = et.fromEmotion := hfrom
    rw [← this]
    exact hfromU
  have ht0 : EMOTION_INTENSITY et.toEmotion.label = 0 := by
    apply EMOTION_INTENSITY_unknown
    have : (finalizeGroup g).toEmotion = et.toEmotion := hto
    rw [← this]
    exact htoU
  show g.totalScore = g.durationBonus
  rw [hscore, hdiff, hf0, ht0]
  simp

theorem emotion_intensity_total_witness :
    EMOTION_INTENSITY "모름" = 0 ∧
    unknownCluster.totalScore = unknownCluster.durationBonus :=
  ⟨emotion_intensity_total.2.1 "모름" (by decide),
   emotion_intensity_total.2.2 unknownJournals [unknownInsight] unknownCluster
     unknownCluster_mem (by decide) (by decide)⟩

/-- Whether an insight contributes to the cluster keyed `key`: it has a valid
transition, with distinct labels, whose key is `key`. -/
def contributesKey (journals : List JournalEntry) (insight : Insight)
    (key : String) : Bool :=
  match getEmotionTransition journals insight with
  | some et => (!(et.fromEmotion.label == et.toEmotion.label)) && (transitionKey et == key)
  | none => false

/-- Invariant relating the already-scanned prefix of the insight list to the
`transitionGroups` dictionary of `groupByEmotionTransition`: every group's
topic set is the insertion-ordered deduplicated union of the topics of its
contributing insights, in scan order, and absent keys have no contributor. -/
def DevState (journals : List JournalEntry) (pre : List Insight)
    (groups : List (String × DevGroup)) : Prop :=
  (∀ p ∈ groups, p.2.topics =
    dedupTopics ((pre.filter (fun i => contributesKey journals i p.1)).filterMap
      (getTopicFromInsight journals)))
  ∧ (∀ key, devHasKey groups key = false →
      pre.filter (fun i => contributesKey journals i key) = [])

theorem devHasKey_devUpdateGroup (groups : List (String × DevGroup)) (k key : String)
    (journals : List JournalEntry) (insight : Insight) (et : EmotionTransition) :
    devHasKey (devUpdateGroup groups k journals insight et) key = devHasKey groups key := by
  unfold devHasKey devUpdateGroup
  rw [List.any_map]
  congr 1
  funext p
  by_cases hk : p.1 = k
  · simp [hk]
  · simp [hk]

theorem devPush_topics (journals : List JournalEntry) (insight : Insight)
    (et : EmotionTransition) (g : DevGroup) :
    (devPush journals insight et g).topics =
      match getTopicFromInsight journals insight with
      | some t => addTopic g.topics t
      | none => g.topics := by
  unfold devPush
  cases getTopicFromInsight journals insight <;>
    · dsimp only
      split <;> rfl

theorem devAddInsight_state {journals : List JournalEntry} {pre : List Insight}
    {groups : List (String × DevGroup)} (insight : Insight)
    (h : DevState journals pre groups) :
    DevState journals (pre ++ [insight]) (devAddInsight journals groups insight) := by
  obtain ⟨htop, habs⟩ := h
  unfold devAddInsight
  cases het : getEmotionTransition journals insight with
  | none =>
    have hck : ∀ key, contributesKey journals insight key = false := by
      intro key
      unfold contributesKey
      rw [het]
    constructor
    · intro p hp
      rw [List.filter_append]
      simp only [List.filter, hck p.1, List.filter_nil, List.append_nil]
      exact htop p hp
    · intro key hk
      rw [List.filter_append]
      simp only [List.filter, hck key, List.filter_nil, List.append_nil]
      exact habs key hk
  | some et =>
    dsimp only
    by_cases hlab : et.fromEmotion.label = et.toEmotion.label
    · rw [if_pos hlab]
      have hck : ∀ key, contributesKey journals insight key = false := by
        intro key
        unfold contributesKey
        rw [het]
        simp [hlab]
      constructor
      · intro p hp
        rw [List.filter_append]
        simp only [List.filter, hck p.1, List.filter_nil, List.append_nil]
        exact htop p hp
      · intro key hk
        rw [List.filter_append]
        simp only [List.filter, hck key, List.filter_nil, List.append_nil]
        exact habs key hk
    · rw [if_neg hlab]
      have hck : ∀ key, contributesKey journals insight key = (transitionKey et == key) := by
        intro key
        unfold contributesKey
        rw [het]
        simp [hlab]
      have hfilter : ∀ key, (pre ++ [insight]).filter
          (fun i => contributesKey journals i key) =
          pre.filter (fun i => contributesKey journals i key) ++
            (if transitionKey et = key then [insight] else []) := by
        intro key
        rw [List.filter_append]
        congr 1
        by_cases hkey : transitionKey et = key
        · simp [List.filter, hck, hkey]
        · have hb : (transitionKey et == key) = false := beq_eq_false_iff_ne.mpr hkey
          simp [List.filter, hck, hb, hkey]
      constructor
      · intro p hp
        rcases List.mem_map.mp hp with ⟨q, hq, hpq⟩
        by_cases hqk : q.1 = transitionKey et
        · rw [if_pos hqk] at hpq
          subst hpq
          dsimp only
          rw [hqk, hfilter (transitionKey et), if_pos rfl, List.filterMap_append,
            devPush_topics]
          have hbase : q.2.topics = dedupTopics
              ((pre.filter (fun i => contributesKey journals i (transitionKey et))).filterMap
                (getTopicFromInsight journals)) := by
            by_cases hk0 : devHasKey groups (transitionKey et)
            · rw [if_pos hk0] at hq
              have := htop q hq
              rw [hqk] at this
              exact this
            · rw [if_neg hk0] at hq
              rcases List.mem_append.mp hq with hq' | hq'
              · exfalso
                have : devHasKey groups (transitionKey et) = true := by
                  unfold devHasKey
                  exact List.any_eq_true.mpr ⟨q, hq', by simp [hqk]⟩
                simp [this] at hk0
              · have hqe := List.mem_singleton.mp hq'
                rw [hqe]
                have hnil := habs (transitionKey et) (by simpa using hk0)
                rw [hnil]
                rfl
          rw [hbase]
          cases hti : getTopicFromInsight journals insight with
          | none =>
            simp [dedupTopics, List.foldl_append, List.filterMap_cons, hti]
          | some t =>
            simp [dedupTopics, List.foldl_append, List.filterMap_cons, hti]
        · rw [if_neg hqk] at hpq
          subst hpq
          have hqg : q ∈ groups := by
            by_cases hk0 : devHasKey groups (transitionKey et)
            · rwa [if_pos hk0] at hq
            · rw [if_neg hk0] at hq
              rcases List.mem_append.mp hq with hq' | hq'
              · exact hq'
              · exact absurd (congrArg Prod.fst (List.mem_singleton.mp hq')) hqk
          rw [hfilter q.1, if_neg (fun he => hqk he.symm), List.append_nil]
          exact htop q hqg
      · intro key hk
        rw [devHasKey_devUpdateGroup] at hk
        have hknew : transitionKey et ≠ key := by
          intro he
          by_cases hk0 : devHasKey groups (transitionKey et)
          · rw [if_pos hk0] at hk
            rw [← he] at hk
            simp [hk0] at hk
          · rw [if_neg hk0] at hk
            unfold devHasKey at hk
            rw [List.any_append] at hk
            simp [he] at hk
        have hkold : devHasKey groups key = false := by
          by_cases hk0 : devHasKey groups (transitionKey et)
          · rwa [if_pos hk0] at hk
          · rw [if_neg hk0] at hk
            unfold devHasKey at hk
            rw [List.any_append] at hk
            unfold devHasKey
            rcases Bool.or_eq_false_iff.mp hk with ⟨h1, _⟩
            exact h1
        rw [hfilter key, if_neg hknew, List.append_nil]
        exact habs key hkold

theorem foldl_devAddInsight_state (journals : List JournalEntry)
    (insights : List Insight) (pre : List Insight)
    (groups : List (String × DevGroup)) (h : DevState journals pre groups) :
    DevState journals (pre ++ insights)
      (insights.foldl (devAddInsight journals) groups) := by
  induction insights generalizing pre groups with
  | nil => simpa using h
  | cons i is ih =>
    have h1 := devAddInsight_state i h
    have h2 := ih (pre ++ [i]) (devAddInsight journals groups i) h1
    simpa [List.append_assoc] using h2

theorem groupByEmotionTransition_state (journals : List JournalEntry)
    (insights : List Insight) :
    DevState journals insights (groupByEmotionTransition journals insights) := by
  have h0 : DevState journals [] [] := ⟨by simp, by simp⟩
  simpa using foldl_devAddInsight_state journals insights [] [] h0

/-- Claim-side associated topic for the topic-union step: the first non-empty,
non-`'none'` topic among the referenced dates taken in ASCENDING DATE order
(what the claim asserts, not what the code does). -/
def topicInDateOrderSpec (journals : List JournalEntry) (insight : Insight) :
    Option String :=
  (sortDates insight.date_references).findSome? (journalTopic journals)

/-- Journal for the C6 counterexample: day 0 (topic `운동`, CALM) and
day 5 (topic `회사`, SADNESS). -/
def topicJournals : List JournalEntry :=
  [⟨0, "", some "운동", some calmE⟩, ⟨5, "", some "회사", some sadE⟩]

/-- An insight listing its referenced dates in DESCENDING order: [5, 0]. -/
def reversedDatesInsight : Insight := ⟨.repetition, "d", [5, 0], "e", none⟩

/-- C6 counterexample: for an insight whose `date_references` are listed in
descending order, the cluster's topic set is `["회사"]` — the first valid topic
in the LISTED order of `date_references` — whereas the claim's
ascending-date-order rule picks `"운동"`, so the claimed topic set `["운동"]`
differs from the actual one. -/
theorem cluster_topics_listed_order_cex :
    (groupByEmotionTransition topicJournals [reversedDatesInsight]).map
        (fun p => (p.1, p.2.topics)) = [("평온->슬픔", ["회사"])]
    ∧ topicInDateOrderSpec topicJournals reversedDatesInsight = some "운동"
    ∧ getTopicFromInsight topicJournals reversedDatesInsight = some "회사"
    ∧ (["회사"] : List String) ≠ ["운동"] :=
  ⟨rfl, rfl, rfl, by decide⟩

/-- C6 (amended): for every cluster built by `groupByEmotionTransition`, the
cluster's topic set is the (insertion-ordered, deduplicated) union over its
contributing Insights of each Insight's associated topic, where an Insight's
associated topic is the first non-empty, non-`'none'` topic found among its
referenced dates taken in the order they are LISTED in `date_references` (not
in ascending date order), and Insights with no such topic contribute no
topic. -/
theorem cluster_topics_union_listed_order (journals : List JournalEntry)
    (insights : List Insight) :
    ∀ p ∈ groupByEmotionTransition journals insights,
      p.2.topics = dedupTopics
        ((insights.filter (fun i => contributesKey journals i p.1)).filterMap
          (getTopicFromInsight journals)) := by
  intro p hp
  exact (groupByEmotionTransition_state journals insights).1 p hp

theorem cluster_topics_union_listed_order_witness :
    (("평온->슬픔", ⟨calmE, sadE, ["회사"], [(0, 5)]⟩) : String × DevGroup).2.topics =
      dedupTopics ((([reversedDatesInsight]).filter
        (fun i => contributesKey topicJournals i "평온->슬픔")).filterMap
          (getTopicFromInsight topicJournals)) :=
  cluster_topics_union_listed_order topicJournals [reversedDatesInsight]
    ("평온->슬픔", ⟨calmE, sadE, ["회사"], [(0, 5)]⟩)
    (by
      have h : groupByEmotionTransition topicJournals [reversedDatesInsight] =
          [("평온->슬픔", ⟨calmE, sadE, ["회사"], [(0, 5)]⟩)] := by rfl
      rw [h]
      exact List.mem_singleton_self _)

/-- The fallback the claim describes: the first line of the description,
truncated to 50 characters, with an ellipsis appended when longer. -/
def claimFallback (description : String) : String :=
  if jsLength (jsFirstLine description) > 50 then
    jsSubstring (jsFirstLine description) 50 ++ "..."
  else jsFirstLine description

/-- An Insight whose summary and description are both blank. -/
def blankInsight : Insight := ⟨.repetition, "", [0], "e", none⟩

/-- C7 counterexample: for an Insight whose summary is missing and whose
description is blank, the consumer contributes NO fallback at all
(`summaryEntry` is `none`), whereas the claim asserts a fallback derived from
the description is displayed. -/
theorem summary_fallback_blank_description_cex :
    summaryEntry blankInsight = none
    ∧ summaryEntry blankInsight ≠ some (claimFallback blankInsight.description) :=
  ⟨rfl, by decide⟩

/-- C7 (amended): for every Insight whose summary is missing or blank, the
consumer contributes a fallback exactly when the description is non-blank:
when the description's first line is non-empty the fallback is the first line
truncated to 50 characters (ellipsis appended when longer) — the claim's
rule — and when the first line is empty (a description starting with a
newline) the whole description is truncated instead; when the description is
blank too, nothing is contributed. The fallback computation is total, so it
never fails the surrounding cluster computation. -/
theorem summary_fallback_shape (insight : Insight)
    (hsum : jsTrim (insight.summary.getD "") = "") :
    (jsTrim insight.description = "" → summaryEntry insight = none)
    ∧ (jsTrim insight.description ≠ "" → jsFirstLine insight.description ≠ "" →
        summaryEntry insight = some (claimFallback insight.description))
    ∧ (jsTrim insight.description ≠ "" → jsFirstLine insight.description = "" →
        summaryEntry insight = some
          (if jsLength insight.description > 50 then
            jsSubstring insight.description 50 ++ "..."
          else insight.description)) := by
  refine ⟨?_, ?_, ?_⟩
  · intro hdesc
    unfold summaryEntry
    rw [if_neg (by simp [hsum]), if_neg (by simp [hdesc])]
  · intro hdesc hfl
    unfold summaryEntry claimFallback
    rw [if_neg (by simp [hsum]), if_pos hdesc]
    dsimp only
    rw [if_neg hfl]
    by_cases hlen : jsLength (jsFirstLine insight.description) > 50
    · rw [if_pos hlen, if_pos hlen]
    · rw [if_neg hlen, if_neg hlen]
  · intro hdesc hfl
    unfold summaryEntry
    rw [if_neg (by simp [hsum]), if_pos hdesc]
    dsimp only
    rw [if_pos hfl]
    by_cases hlen : jsLength insight.description > 50
    · rw [if_pos hlen, if_pos hlen]
    · rw [if_neg hlen, if_neg hlen]

theorem summary_fallback_shape_witness :
    summaryEntry ⟨.repetition, "busy day at work", [0], "e", none⟩ =
      some (claimFallback "busy day at work") :=
  (summary_fallback_shape ⟨.repetition, "busy day at work", [0], "e", none⟩
    (by rfl)).2.1 (by decide) (by decide)

/-- C8 (code bug): evaluations of the report-fetch functions. On a 404, any
other non-ok status, or a thrown fetch, both functions return null and no
exception escapes the `catch`; but on an ok (200) response whose body fails to
parse as JSON, the parse rejection propagates to the caller —
`return response.json();` is not awaited inside the `try`, so the promise is
adopted after the `try` block exits and the `catch` never sees the rejection —
contradicting the claim (and the code's own "return null even on error"
comments). -/
theorem report_fetch_json_rejection :
    getLatestReport "user-1" (.resp 200 (.error "Unexpected token")) =
      .error "Unexpected token"
    ∧ getPreviousReport "user-1" "2024-01-01T00:00:00"
        (.resp 200 (.error "Unexpected token")) = .error "Unexpected token"
    ∧ getLatestReport "user-1" (.resp 404 (.error "Not Found")) = .ok none
    ∧ getLatestReport "user-1" (.thrown "Network request failed") = .ok none
    ∧ getLatestReport "user-1" (.resp 500 (.error "Internal Server Error")) = .ok none
    ∧ getPreviousReport "user-1" "2024-01-01T00:00:00"
        (.thrown "Network request failed") = .ok none :=
  ⟨rfl, rfl, rfl, rfl, rfl, rfl⟩

/-- C9 (spec-modelled): for every evaluated report with both axis scores in
[0, 1], the finalized `overall_score` lies in [0, 1], `is_acceptable` holds
iff `overall_score ≥ 0.7` (the fixed threshold), and `needs_revision` is the
negation of `is_acceptable`. -/
theorem finalize_evaluation_invariant (quality_score safety_score : ℚ)
    (hq0 : 0 ≤ quality_score) (hq1 : quality_score ≤ 1)
    (hs0 : 0 ≤ safety_score) (hs1 : safety_score ≤ 1) :
    (0 ≤ (finalize_evaluation quality_score safety_score).overall_score
      ∧ (finalize_evaluation quality_score safety_score).overall_score ≤ 1)
    ∧ ((finalize_evaluation quality_score safety_score).is_acceptable = true ↔
        (7 : ℚ)/10 ≤ (finalize_evaluation quality_score safety_score).overall_score)
    ∧ (finalize_evaluation quality_score safety_score).needs_revision =
        ! (finalize_evaluation quality_score safety_score).is_acceptable := by
  refine ⟨⟨le_min hq0 hs0, le_trans (min_le_left _ _) hq1⟩, ?_, rfl⟩
  simp [finalize_evaluation, ge_iff_le]

theorem finalize_evaluation_invariant_witness :
    (0 ≤ (1 : ℚ) ∧ (1 : ℚ) ≤ 1 ∧ 0 ≤ (0 : ℚ) ∧ (0 : ℚ) ≤ 1)
    ∧ (0 ≤ (finalize_evaluation (1 : ℚ) (0 : ℚ)).overall_score
        ∧ (finalize_evaluation (1 : ℚ) (0 : ℚ)).overall_score ≤ 1)
    ∧ ((finalize_evaluation (1 : ℚ) (0 : ℚ)).is_acceptable = true ↔
        (7 : ℚ)/10 ≤ (finalize_evaluation (1 : ℚ) (0 : ℚ)).overall_score) :=
  ⟨⟨zero_le_one, le_refl 1, le_refl 0, zero_le_one⟩,
   (finalize_evaluation_invariant (1 : ℚ) (0 : ℚ)
     zero_le_one (le_refl 1) (le_refl 0) zero_le_one).1,
   (finalize_evaluation_invariant (1 : ℚ) (0 : ℚ)
     zero_le_one (le_refl 1) (le_refl 0) zero_le_one).2.1⟩
